import Mathlib

/-!
Shallow embedding of the SMBIOS table decoder from
`src/source/base/devices/smbios.cc` (namespace `aspia`, class `SMBios`).

Modelling conventions:
* The raw table region is a byte memory `mem : Nat → Nat` (offsets relative to
  `smbios_table_data`); the walker functions (`GetTableCount`, `GetTable`)
  never assume anything beyond what the C++ pointer walk reads, so they are
  stated over an arbitrary infinite memory, exactly like a raw `const uint8_t*`.
* The located-structure accessors (`Table.GetString`, `SystemTable.GetUUID`,
  `BiosTable.*`, `BaseboardTable.*`) work on a finite blob `buf : List Nat`
  with `buf.getD i 0` as byte read: memory past the end of the finite blob is
  modelled as zero bytes (this makes the C `strlen`-style scans total).
* A 16-bit comparison `*(const uint16_t*)p != 0` becomes
  `mem p ≠ 0 ∨ mem (p + 1) ≠ 0`; multi-byte loads are little-endian sums.
* C `while` loops become well-founded recursion; loops whose guards are
  conjunctions keep the source's short-circuit evaluation order as nested `if`s.
-/

namespace SMBios

/-- One iteration count of the inner string-skipping loop of
`SMBios::GetTableCount` (`while (*(const uint16_t*)pos != 0 && pos < end) ++pos;`):
the number of `++pos` steps executed starting from `pos`. -/
def scanSteps (mem : Nat → Nat) (L pos : Nat) : Nat :=
  if _h1 : mem pos ≠ 0 ∨ mem (pos + 1) ≠ 0 then
    if _h2 : pos < L then scanSteps mem L (pos + 1) + 1
    else 0
  else 0
termination_by L - pos
decreasing_by omega

/-- Final cursor of the inner string-skipping loop of `SMBios::GetTableCount`,
started at `pos`. -/
def scanStrings (mem : Nat → Nat) (L pos : Nat) : Nat :=
  pos + scanSteps mem L pos

/-- The outer loop of `SMBios::GetTableCount`: `pos` is the cursor,
`count` the accumulator.  Each iteration does `pos += pos[1]`, skips the
string list, does `pos += 2` and increments `count`. -/
def countAux (mem : Nat → Nat) (L pos count : Nat) : Nat :=
  if _h : pos < L then
    countAux mem L (scanStrings mem L (pos + mem (pos + 1)) + 2) (count + 1)
  else count
termination_by L - pos
decreasing_by simp only [scanStrings]; omega

/-- `SMBios::GetTableCount(table_data, length)`: number of structures the
walk visits in the region `[0, L)`. -/
def GetTableCount (mem : Nat → Nat) (L : Nat) : Nat :=
  countAux mem L 0 0

/-- Read addresses of the inner string-skipping loop of `SMBios::GetTableCount`:
every evaluation of `*(const uint16_t*)pos` reads bytes `pos` and `pos + 1`,
including the final evaluation that exits the loop. -/
def scanReads (mem : Nat → Nat) (L pos : Nat) : List Nat :=
  if _h1 : mem pos ≠ 0 ∨ mem (pos + 1) ≠ 0 then
    if _h2 : pos < L then pos :: (pos + 1) :: scanReads mem L (pos + 1)
    else [pos, pos + 1]
  else [pos, pos + 1]
termination_by L - pos
decreasing_by omega

/-- Read addresses of the outer loop of `SMBios::GetTableCount`:
`pos += pos[1]` reads byte `pos + 1`, then the string scan reads its probes. -/
def countReads (mem : Nat → Nat) (L pos : Nat) : List Nat :=
  if _h : pos < L then
    (pos + 1) :: (scanReads mem L (pos + mem (pos + 1)) ++
      countReads mem L (scanStrings mem L (pos + mem (pos + 1)) + 2))
  else []
termination_by L - pos
decreasing_by simp only [scanStrings]; omega

/-- All byte addresses `SMBios::GetTableCount(table_data, L)` dereferences,
as offsets from `table_data`.  An address `≥ L` is a read outside the
supplied table region. -/
def GetTableCountReads (mem : Nat → Nat) (L : Nat) : List Nat :=
  countReads mem L 0

/-- The inner loop of `SMBios::GetTable`
(`while (next - start + 1 < length && (next[0] != 0 || next[1] != 0)) ++next;`):
final value of `next`.  Note the bound is checked before the dereference here,
unlike in `GetTableCount`. -/
def findNext (mem : Nat → Nat) (L next : Nat) : Nat :=
  if _h1 : next + 1 < L then
    if _h2 : mem next ≠ 0 ∨ mem (next + 1) ≠ 0 then findNext mem L (next + 1)
    else next
  else next
termination_by L - next
decreasing_by omega

/-- The `TABLE_TYPE_END_OF_TABLE` marker type code. -/
def TABLE_TYPE_END_OF_TABLE : Nat := 127

/-- The loop of `SMBios::GetTable`: `pos` is the cursor, `idx` the
`table_index` counter, `count` the `table_count_` member, `t` the requested
type.  Returns the offset of the found structure or `none` (`nullptr`). -/
def getTableAux (mem : Nat → Nat) (L count t : Nat) (pos idx : Nat) : Option Nat :=
  if h1 : idx < count then
    if _h2 : pos + 4 ≤ L then
      if mem (pos + 1) < 4 then none
      else if mem pos = t then some pos
      else if mem pos = TABLE_TYPE_END_OF_TABLE then none
      else getTableAux mem L count t (findNext mem L (pos + mem (pos + 1)) + 2) (idx + 1)
    else none
  else none
termination_by count - idx
decreasing_by omega

/-- `SMBios::GetTable(type)` over the table region `[0, L)` with the cached
`table_count_` value `count`. -/
def GetTable (mem : Nat → Nat) (L count t : Nat) : Option Nat :=
  getTableAux mem L count t 0 0

/-- The state of an `SMBios` object: the table region bytes, the announced
region length (`smbios->length`) and the cached `table_count_` member. -/
structure SMBiosState where
  mem : Nat → Nat
  length : Nat
  table_count : Nat

/-- `SMBios::GetTable` as a method on the object state: it is a `const`
method, so it returns its result together with the (unchanged) state. -/
def GetTableM (s : SMBiosState) (t : Nat) : Option Nat × SMBiosState :=
  (getTableAux s.mem s.length s.table_count t 0 0, s)

/-- The header fields of `SMBiosData` that `SMBios::Create` reads (the struct
layout itself lives in the header file; only the fields matter here). -/
structure SMBiosData where
  smbios_major_version : Nat
  smbios_minor_version : Nat
  length : Nat
  smbios_table_data : Nat → Nat

/-- `SMBios::Create(data, data_size)`: fails (`nullptr`) on a null/empty
buffer, or when `GetTableCount` over the announced table region returns 0;
otherwise succeeds carrying the computed table count. -/
def Create (present : Bool) (data_size : Nat) (d : SMBiosData) : Option Nat :=
  if present = false ∨ data_size = 0 then none
  else if GetTableCount d.smbios_table_data d.length = 0 then none
  else some (GetTableCount d.smbios_table_data d.length)

/-- Wellformedness of a region slice `[pos, e)` holding the structures whose
start offsets are `offs`, in walk order: each structure has a declared length
byte `≥ 4` at `pos + 1`, its trailing string list ends with the first 16-bit
zero after the formatted area at `mid - 2`, and the next structure starts at
`mid`.  `WFchain mem 0 L offs` is the claim's wellformed blob of
`offs.length` structures whose region ends exactly after the last one. -/
inductive WFchain (mem : Nat → Nat) : Nat → Nat → List Nat → Prop where
  | nil (pos : Nat) : WFchain mem pos pos []
  | cons (pos mid e : Nat) (offs : List Nat)
      (hlen : 4 ≤ mem (pos + 1))
      (hmid : pos + mem (pos + 1) + 2 ≤ mid)
      (hz0 : mem (mid - 2) = 0) (hz1 : mem (mid - 1) = 0)
      (hns : ∀ i, pos + mem (pos + 1) ≤ i → i < mid - 2 → mem i ≠ 0 ∨ mem (i + 1) ≠ 0)
      (htail : WFchain mem mid e offs) :
      WFchain mem pos e (pos :: offs)

/-- The first structure offset in `offs` whose type byte equals `t`; `none`
when none exists or the end-of-table marker comes first.  (Spec-side
characterisation of the lookup policy; the type byte of the marker itself is
still checked against `t` first, as in the source.) -/
def firstMatch (mem : Nat → Nat) (t : Nat) : List Nat → Option Nat
  | [] => none
  | p :: ps =>
    if mem p = t then some p
    else if mem p = TABLE_TYPE_END_OF_TABLE then none
    else firstMatch mem t ps

/-- `SMBios::Table::GetByte(offset)` for a structure located at `s`:
`data_[offset]`. -/
def Table.GetByte (buf : List Nat) (s off : Nat) : Nat :=
  buf.getD (s + off) 0

/-- `SMBios::Table::GetWord(offset)`: little-endian 16-bit load. -/
def Table.GetWord (buf : List Nat) (s off : Nat) : Nat :=
  Table.GetByte buf s off + Table.GetByte buf s (off + 1) * 2 ^ 8

/-- `SMBios::Table::GetQword(offset)`: little-endian 64-bit load. -/
def Table.GetQword (buf : List Nat) (s off : Nat) : Nat :=
  Table.GetByte buf s off + Table.GetByte buf s (off + 1) * 2 ^ 8 +
  Table.GetByte buf s (off + 2) * 2 ^ 16 + Table.GetByte buf s (off + 3) * 2 ^ 24 +
  Table.GetByte buf s (off + 4) * 2 ^ 32 + Table.GetByte buf s (off + 5) * 2 ^ 40 +
  Table.GetByte buf s (off + 6) * 2 ^ 48 + Table.GetByte buf s (off + 7) * 2 ^ 56

/-- `strlen`-style scan: the first offset `q ≥ p` whose byte is 0 (the
terminator of the C string starting at `p`). -/
def strend (buf : List Nat) (p : Nat) : Nat :=
  if h : buf.getD p 0 ≠ 0 then strend buf (p + 1) else p
termination_by buf.length - p
decreasing_by
  have hp : p < buf.length := by
    by_contra hc
    exact h (List.getD_eq_default _ _ (Nat.le_of_not_lt hc))
  omega

/-- The string-selection loop of `SMBios::Table::GetString`
(`while (handle > 1 && *string) { string += strlen(string); ++string; --handle; }`):
final value of the `string` cursor. -/
def getStringAux (buf : List Nat) (handle p : Nat) : Nat :=
  if _h1 : 1 < handle then
    if _h2 : buf.getD p 0 ≠ 0 then getStringAux buf (handle - 1) (strend buf p + 1)
    else p
  else p
termination_by handle
decreasing_by omega

/-- The bytes of the C string starting at `p` (what `return string;` yields
as a `std::string`). -/
def readCString (buf : List Nat) (p : Nat) : List Nat :=
  if h : buf.getD p 0 ≠ 0 then buf.getD p 0 :: readCString buf (p + 1) else []
termination_by buf.length - p
decreasing_by
  have hp : p < buf.length := by
    by_contra hc
    exact h (List.getD_eq_default _ _ (Nat.le_of_not_lt hc))
  omega

/-- `SMBios::Table::GetString(offset)` for a structure at `s`: reads the
string index byte at `s + offset`; 0 yields the empty string; otherwise the
cursor starts at `data_ + data_[1]` and skips `handle - 1` strings; an empty
segment under the final cursor yields the empty string.  (The source checks
`!*string || !string[0]`, which is the same byte twice.) -/
def Table.GetString (buf : List Nat) (s off : Nat) : List Nat :=
  let handle := Table.GetByte buf s off
  if handle = 0 then []
  else
    let p := getStringAux buf handle (s + buf.getD (s + 1) 0)
    if buf.getD p 0 = 0 then [] else readCString buf p

/-- A trailing string list laid out at offset `q` of `buf`: the segments of
`segs` are the successive null-terminated strings (each nonempty, bytes
nonzero), and the list ends with the empty segment (a second null byte). -/
def SegsAt (buf : List Nat) : Nat → List (List Nat) → Prop
  | q, [] => buf.getD q 0 = 0
  | q, seg :: rest =>
    seg ≠ [] ∧ (∀ i < seg.length, buf.getD (q + i) 0 = seg.getD i 0 ∧ seg.getD i 0 ≠ 0) ∧
    buf.getD (q + seg.length) 0 = 0 ∧ SegsAt buf (q + seg.length + 1) rest

/-- One hexadecimal digit, upper case, as printed by `%02X`. -/
def hexDigit (n : Nat) : Char :=
  if n < 10 then Char.ofNat (48 + n) else Char.ofNat (55 + n)

/-- A byte as two upper-case hexadecimal digits (`%02X`). -/
def byteHex (b : Nat) : String :=
  String.mk [hexDigit (b / 16), hexDigit (b % 16)]

/-- The mixed-endian GUID rendering of `SMBios::SystemTable::GetUUID`
(SMBIOS version `≥ 2.6`): bytes 3,2,1,0-5,4-7,6-8,9-10..15. -/
def guidMixed (b : Nat → Nat) : String :=
  byteHex (b 3) ++ byteHex (b 2) ++ byteHex (b 1) ++ byteHex (b 0) ++ "-" ++
  byteHex (b 5) ++ byteHex (b 4) ++ "-" ++ byteHex (b 7) ++ byteHex (b 6) ++ "-" ++
  byteHex (b 8) ++ byteHex (b 9) ++ "-" ++ byteHex (b 10) ++ byteHex (b 11) ++
  byteHex (b 12) ++ byteHex (b 13) ++ byteHex (b 14) ++ byteHex (b 15)

/-- The raw-order GUID rendering of `SMBios::SystemTable::GetUUID`
(SMBIOS version `< 2.6`): bytes 0..15 in order. -/
def guidRaw (b : Nat → Nat) : String :=
  byteHex (b 0) ++ byteHex (b 1) ++ byteHex (b 2) ++ byteHex (b 3) ++ "-" ++
  byteHex (b 4) ++ byteHex (b 5) ++ "-" ++ byteHex (b 6) ++ byteHex (b 7) ++ "-" ++
  byteHex (b 8) ++ byteHex (b 9) ++ "-" ++ byteHex (b 10) ++ byteHex (b 11) ++
  byteHex (b 12) ++ byteHex (b 13) ++ byteHex (b 14) ++ byteHex (b 15)

/-- The all-0x00/all-0xFF detection loop of `SMBios::SystemTable::GetUUID`
(`for (int i = 0; i < 16 && (only_0x00 || only_0xFF); ++i) ...`), with
`rem = 16 - i` remaining iterations. -/
def uuidScanAux (b : Nat → Nat) : Nat → Nat → Bool → Bool → Bool × Bool
  | _, 0, only00, onlyFF => (only00, onlyFF)
  | i, rem + 1, only00, onlyFF =>
    if only00 || onlyFF then
      uuidScanAux b (i + 1) rem (only00 && decide (b i = 0x00))
        (onlyFF && decide (b i = 0xFF))
    else (only00, onlyFF)

/-- `SMBios::SystemTable::GetUUID` for a System structure at `s` with the
reported SMBIOS version `major.minor`. -/
def SystemTable.GetUUID (buf : List Nat) (s major minor : Nat) : String :=
  let table_length := Table.GetByte buf s 0x01
  if table_length < 0x19 then ""
  else
    let b : Nat → Nat := fun i => Table.GetByte buf s (0x08 + i)
    let flags := uuidScanAux b 0 16 true true
    if flags.1 || flags.2 then ""
    else if 0x0206 ≤ (major <<< 8) + minor then guidMixed b
    else guidRaw b

/-- Spec-side rendering of the amended UUID contract: empty when the declared
length is below `0x19`, or when the 16 bytes at offset 8 are all `0x00` or
all `0xFF`; otherwise the version-dependent GUID string. -/
def uuidSpecSide (buf : List Nat) (s major minor : Nat) : String :=
  if Table.GetByte buf s 0x01 < 0x19 then ""
  else
    let b : Nat → Nat := fun i => Table.GetByte buf s (0x08 + i)
    if (∀ i : Fin 16, b i.1 = 0x00) ∨ (∀ i : Fin 16, b i.1 = 0xFF) then ""
    else if 0x0206 ≤ (major <<< 8) + minor then guidMixed b
    else guidRaw b

/-- `characteristics_names` of `SMBios::BiosTable::GetCharacteristics`:
labels of qword bits 3..31 (index 0 is the bit-3 label). -/
def biosCharacteristicsNames : List String :=
  ["BIOS characteristics not supported", "ISA", "MCA", "EISA", "PCI",
   "PC Card (PCMCIA)", "PNP", "APM", "BIOS is upgradeable", "BIOS shadowing",
   "VLB", "ESCD", "Boot from CD", "Selectable boot", "BIOS ROM is socketed",
   "Boot from PC Card (PCMCIA)", "EDD",
   "Japanese floppy for NEC 9800 1.2 MB (int 13h)",
   "Japanese floppy for Toshiba 1.2 MB (int 13h)",
   "5.25\"/360 kB floppy (int 13h)", "5.25\"/1.2 MB floppy (int 13h)",
   "3.5\"/720 kB floppy (int 13h)", "3.5\"/2.88 MB floppy (int 13h)",
   "Print screen (int 5h)", "8042 keyboard (int 9h)", "Serial (int 14h)",
   "Printer (int 17h)", "CGA/mono video (int 10h)", "NEC PC-98"]

/-- `characteristics1_names`: labels of the first extension byte (offset
`0x12`), bits 0..7. -/
def biosCharacteristics1Names : List String :=
  ["ACPI", "USB legacy", "AGP", "I2O boot", "LS-120 boot",
   "ATAPI Zip drive boot", "IEEE 1394 boot", "Smart battery"]

/-- `characteristics2_names`: labels of the second extension byte (offset
`0x13`), bits 0..2. -/
def biosCharacteristics2Names : List String :=
  ["BIOS boot specification", "Function key-initiated network boot",
   "Targeted content distribution"]

/-- `SMBios::BiosTable::GetCharacteristics` for a BIOS structure at `s`:
the bits 4..31 block is emitted only when qword bit 3 is clear; the two
extension-byte blocks are appended whenever the declared length covers them. -/
def BiosTable.GetCharacteristics (buf : List Nat) (s : Nat) : List (String × Bool) :=
  let characteristics := Table.GetQword buf s 0x0A
  let base :=
    if characteristics &&& (1 <<< 3) = 0 then
      (List.range' 4 28).map fun i =>
        (biosCharacteristicsNames.getD (i - 3) "",
         decide (characteristics &&& (1 <<< i) ≠ 0))
    else []
  let table_length := Table.GetByte buf s 0x01
  let part1 :=
    if 0x13 ≤ table_length then
      (List.range 8).map fun i =>
        (biosCharacteristics1Names.getD i "",
         decide (Table.GetByte buf s 0x12 &&& (1 <<< i) ≠ 0))
    else []
  let part2 :=
    if 0x14 ≤ table_length then
      (List.range 3).map fun i =>
        (biosCharacteristics2Names.getD i "",
         decide (Table.GetByte buf s 0x13 &&& (1 <<< i) ≠ 0))
    else []
  base ++ part1 ++ part2

/-- Spec-side rendering of the amended characteristics contract, phrased
with `Nat.testBit`: the bits 4..31 block appears exactly when bit 3 of the
qword is clear, and each extension block exactly when the declared length
covers its offset. -/
def charSpecSide (buf : List Nat) (s : Nat) : List (String × Bool) :=
  let c := Table.GetQword buf s 0x0A
  let len := Table.GetByte buf s 0x01
  (if c.testBit 3 then []
   else (List.range' 4 28).map fun i =>
     (biosCharacteristicsNames.getD (i - 3) "", c.testBit i)) ++
  (if 0x13 ≤ len then
     (List.range 8).map fun k =>
       (biosCharacteristics1Names.getD k "", (Table.GetByte buf s 0x12).testBit k)
   else []) ++
  (if 0x14 ≤ len then
     (List.range 3).map fun k =>
       (biosCharacteristics2Names.getD k "", (Table.GetByte buf s 0x13).testBit k)
   else [])

/-- `SMBios::BiosTable::GetRuntimeSize`: 0 when the starting-address segment
word at offset 6 is 0, else `(0x10000 - address) << 4` with the byte/kilobyte
unit selection of the source. -/
def BiosTable.GetRuntimeSize (buf : List Nat) (s : Nat) : Nat :=
  let address := Table.GetWord buf s 0x06
  if address = 0 then 0
  else
    let code := (0x10000 - address) <<< 4
    if code &&& 0x000003FF ≠ 0 then code
    else (code >>> 10) * 1024

/-- `feature_names` of `SMBios::BaseboardTable::GetFeatures`: labels of the
feature byte's bits 0..4. -/
def baseboardFeatureNames : List String :=
  ["Board is a hosting board", "Board requires at least one daughter board",
   "Board is removable", "Board is replaceable", "Board is hot swappable"]

/-- `SMBios::BaseboardTable::GetFeatures` for a Baseboard structure at `s`:
empty when the declared length is below `0x0A` or the low five bits of the
feature byte at offset 9 are all clear; otherwise one `(label, isSet)` pair
per bit 0..4. -/
def BaseboardTable.GetFeatures (buf : List Nat) (s : Nat) : List (String × Bool) :=
  let table_length := Table.GetByte buf s 0x01
  if table_length < 0x0A then []
  else
    let features := Table.GetByte buf s 0x09
    if features &&& 0x1F = 0 then []
    else
      (List.range 5).map fun i =>
        (baseboardFeatureNames.getD i "", decide (features &&& (1 <<< i) ≠ 0))

/-- A two-structure wellformed blob: a type-1 structure of declared length 4
with an empty string list, then the end-of-table marker (type 127). -/
def exBlob : List Nat := [1, 4, 0, 0, 0, 0, 127, 4, 0, 0, 0, 0]

/-- Byte memory of `exBlob` (zero past the end). -/
def exMem : Nat → Nat := fun i => exBlob.getD i 0

/-- A blob whose first structure is wellformed (type 1, no match for type 9)
and whose second structure has declared length 3 (< 4): the `GetTable` walk
must abort there. -/
def exMalBlob : List Nat := [1, 4, 0, 0, 0, 0, 5, 3, 0, 0]

/-- Byte memory of `exMalBlob`. -/
def exMalMem : Nat → Nat := fun i => exMalBlob.getD i 0

/-- A structure (at offset 0) whose string list holds exactly two strings,
"A" and "B", while the string-index byte at offset 2 is 5. -/
def exStrBlob : List Nat := [1, 4, 5, 0, 65, 0, 66, 0, 0]

/-- A System structure of declared length `0x18` (24) whose 16 UUID bytes at
offset 8 are `01 02 .. 10`: the declared length covers the UUID field, yet
`GetUUID` rejects it because the source demands `0x19`. -/
def exUUID24 : List Nat :=
  [1, 0x18, 0, 0, 0, 0, 0, 0,
   1, 2, 3, 4, 5, 6, 7, 8, 9, 10, 11, 12, 13, 14, 15, 16]

/-- A System structure of declared length `0x19` whose 16 UUID bytes at
offset 8 are `01 02 .. 10`. -/
def exUUID25 : List Nat :=
  [1, 0x19, 0, 0, 0, 0, 0, 0,
   1, 2, 3, 4, 5, 6, 7, 8, 9, 10, 11, 12, 13, 14, 15, 16, 0]

/-- A System structure of declared length `0x19` whose 16 UUID bytes are all
`0x00`. -/
def exUUIDZero : List Nat :=
  [1, 0x19, 0, 0, 0, 0, 0, 0,
   0, 0, 0, 0, 0, 0, 0, 0, 0, 0, 0, 0, 0, 0, 0, 0, 0]

/-- A System structure of declared length `0x19` whose 16 UUID bytes are all
`0xFF`. -/
def exUUIDFF : List Nat :=
  [1, 0x19, 0, 0, 0, 0, 0, 0,
   255, 255, 255, 255, 255, 255, 255, 255,
   255, 255, 255, 255, 255, 255, 255, 255, 0]

/-- A BIOS structure of declared length `0x13` whose characteristics qword at
offset `0x0A` has (only) bit 3 set ("characteristics not supported") and whose
first extension byte at `0x12` is 1. -/
def exBios : List Nat :=
  [0, 0x13, 0, 0, 0, 0, 0, 0, 0, 0,
   8, 0, 0, 0, 0, 0, 0, 0,
   1]

/-- A Baseboard structure of declared length `0x0A` whose feature byte at
offset 9 is `0x20`: non-zero, but with bits 0..4 all clear. -/
def exBoard : List Nat := [2, 0x0A, 0, 0, 0, 0, 0, 0, 0, 0x20]

/-- Decidability of a `Nat`-bounded universal, delegated to the core
instance (used to evaluate wellformedness side conditions on concrete
blobs). -/
instance decidableBallLTNat (n : Nat) (P : Nat → Prop) [DecidablePred P] :
    Decidable (∀ i, i < n → P i) :=
  Nat.decidableBallLT n (fun i _ => P i)

theorem scanSteps_stops (mem : Nat → Nat) (L : Nat) :
    ∀ (n a b : Nat), b - a = n → a ≤ b → b ≤ L →
    (∀ i, a ≤ i → i < b → mem i ≠ 0 ∨ mem (i + 1) ≠ 0) →
    mem b = 0 → mem (b + 1) = 0 →
    scanSteps mem L a = b - a := by
  intro n
  induction n with
  | zero =>
    intro a b hn hab hbL hns hz0 hz1
    have hab' : a = b := by omega
    subst hab'
    rw [scanSteps, dif_neg]
    · omega
    · simp [hz0, hz1]
  | succ n ih =>
    intro a b hn hab hbL hns hz0 hz1
    have ha : a < b := by omega
    rw [scanSteps, dif_pos (hns a (Nat.le_refl a) ha), dif_pos (by omega)]
    have := ih (a + 1) b (by omega) (by omega) hbL
      (fun i h1 h2 => hns i (by omega) h2) hz0 hz1
    omega

theorem scanStrings_stops (mem : Nat → Nat) (L : Nat) (a b : Nat)
    (hab : a ≤ b) (hbL : b ≤ L)
    (hns : ∀ i, a ≤ i → i < b → mem i ≠ 0 ∨ mem (i + 1) ≠ 0)
    (hz0 : mem b = 0) (hz1 : mem (b + 1) = 0) :
    scanStrings mem L a = b := by
  have := scanSteps_stops mem L (b - a) a b rfl hab hbL hns hz0 hz1
  rw [scanStrings]
  omega

theorem WFchain_le {mem : Nat → Nat} :
    ∀ {pos e : Nat} {offs : List Nat}, WFchain mem pos e offs → pos ≤ e := by
  intro pos e offs h
  induction h with
  | nil p => exact Nat.le_refl p
  | cons pos mid e offs hlen hmid hz0 hz1 hns htail ih => omega

theorem countAux_chain {mem : Nat → Nat} :
    ∀ {pos e : Nat} {offs : List Nat}, WFchain mem pos e offs →
    ∀ c, countAux mem e pos c = c + offs.length := by
  intro pos e offs h
  induction h with
  | nil p =>
    intro c
    rw [countAux, dif_neg (Nat.lt_irrefl p)]
    simp
  | cons pos mid e offs hlen hmid hz0 hz1 hns htail ih =>
    intro c
    have hme : mid ≤ e := WFchain_le htail
    have hpe : pos < e := by omega
    rw [countAux, dif_pos hpe]
    have hz1' : mem (mid - 2 + 1) = 0 := by
      have h21 : mid - 2 + 1 = mid - 1 := by omega
      rw [h21]; exact hz1
    have hscan : scanStrings mem e (pos + mem (pos + 1)) = mid - 2 :=
      scanStrings_stops mem e _ (mid - 2) (by omega) (by omega) hns hz0 hz1'
    rw [hscan]
    have hmid2 : mid - 2 + 2 = mid := by omega
    rw [hmid2, ih (c + 1)]
    simp [List.length_cons]
    omega

theorem countAux_ge (mem : Nat → Nat) (L : Nat) :
    ∀ (n pos c : Nat), L - pos ≤ n → c ≤ countAux mem L pos c := by
  intro n
  induction n with
  | zero =>
    intro pos c h
    rw [countAux, dif_neg (by omega)]
  | succ n ih =>
    intro pos c h
    rw [countAux]
    by_cases hp : pos < L
    · rw [dif_pos hp]
      refine Nat.le_trans (Nat.le_succ c) (ih _ (c + 1) ?_)
      simp only [scanStrings]
      omega
    · rw [dif_neg hp]

/-- C1: for every wellformed blob — a chain of structures each with declared
length at least 4 and a double-null-terminated string list, ending with the
end-of-table marker (type 127), the region ending exactly after the last
structure — `SMBios::GetTableCount` returns exactly the number of
structures. -/
theorem getTableCount_wellformed (mem : Nat → Nat) (L : Nat) (offs : List Nat)
    (hchain : WFchain mem 0 L offs) (hne : offs ≠ [])
    (_hlast : mem (offs.getLast hne) = TABLE_TYPE_END_OF_TABLE) :
    GetTableCount mem L = offs.length := by
  rw [GetTableCount, countAux_chain hchain 0, Nat.zero_add]

theorem exChain : WFchain exMem 0 12 [0, 6] := by
  have h1 : WFchain exMem 6 12 [6] := by
    refine WFchain.cons 6 12 12 [] (by decide) (by decide) (by decide) (by decide)
      ?_ (WFchain.nil 12)
    intro i h1 h2
    have he : exMem (6 + 1) = 4 := by decide
    omega
  refine WFchain.cons 0 6 12 [6] (by decide) (by decide) (by decide) (by decide)
    ?_ h1
  intro i h1 h2
  have he : exMem (0 + 1) = 4 := by decide
  omega

/-- Witness for C1: the two-structure blob `exBlob` (a type-1 structure and
the end-of-table marker) is counted as exactly 2 structures. -/
theorem getTableCount_wellformed_witness : GetTableCount exMem 12 = 2 :=
  getTableCount_wellformed exMem 12 [0, 6] exChain (by decide) (by decide)

theorem findNext_stops (mem : Nat → Nat) (L : Nat) :
    ∀ (n a b : Nat), b - a = n → a ≤ b → b < L →
    (∀ i, a ≤ i → i < b → mem i ≠ 0 ∨ mem (i + 1) ≠ 0) →
    mem b = 0 → mem (b + 1) = 0 →
    findNext mem L a = b := by
  intro n
  induction n with
  | zero =>
    intro a b hn hab hbL hns hz0 hz1
    have hab' : a = b := by omega
    subst hab'
    rw [findNext]
    by_cases hb : a + 1 < L
    · rw [dif_pos hb, dif_neg]
      simp [hz0, hz1]
    · rw [dif_neg hb]
  | succ n ih =>
    intro a b hn hab hbL hns hz0 hz1
    have ha : a < b := by omega
    rw [findNext, dif_pos (by omega), dif_pos (hns a (Nat.le_refl a) ha)]
    exact ih (a + 1) b (by omega) (by omega) hbL
      (fun i h1 h2 => hns i (by omega) h2) hz0 hz1

theorem getTableAux_chain {mem : Nat → Nat} {t : Nat} :
    ∀ {pos e : Nat} {offs : List Nat}, WFchain mem pos e offs →
    ∀ idx count, idx + offs.length = count →
    getTableAux mem e count t pos idx = firstMatch mem t offs := by
  intro pos e offs h
  induction h with
  | nil p =>
    intro idx count hc
    rw [getTableAux, dif_neg (by simp at hc; omega)]
    rfl
  | cons pos mid e offs hlen hmid hz0 hz1 hns htail ih =>
    intro idx count hc
    have hme : mid ≤ e := WFchain_le htail
    simp only [List.length_cons] at hc
    rw [getTableAux, dif_pos (by omega), dif_pos (by omega), if_neg (by omega)]
    by_cases hmt : mem pos = t
    · rw [if_pos hmt, firstMatch, if_pos hmt]
    · rw [if_neg hmt]
      by_cases hm7 : mem pos = TABLE_TYPE_END_OF_TABLE
      · rw [if_pos hm7, firstMatch, if_neg hmt, if_pos hm7]
      · rw [if_neg hm7]
        have hz1' : mem (mid - 2 + 1) = 0 := by
          have h21 : mid - 2 + 1 = mid - 1 := by omega
          rw [h21]; exact hz1
        have hfind : findNext mem e (pos + mem (pos + 1)) = mid - 2 :=
          findNext_stops mem e _ _ (mid - 2) rfl (by omega) (by omega) hns hz0 hz1'
        rw [hfind]
        have hmid2 : mid - 2 + 2 = mid := by omega
        rw [hmid2, firstMatch, if_neg hmt, if_neg hm7]
        exact ih (idx + 1) count (by omega)

/-- C2: on a wellformed blob whose structure count was computed at
construction, `SMBios::GetTable` returns the offset of the first structure
whose type byte equals the requested type; it returns `nullptr` when no
structure matches or when the end-of-table marker is visited before any
match; later structures of the same type are never returned (the result is
exactly the first-match policy `firstMatch`). -/
theorem getTable_firstMatch (mem : Nat → Nat) (L t : Nat) (offs : List Nat)
    (hchain : WFchain mem 0 L offs) :
    GetTable mem L offs.length t = firstMatch mem t offs := by
  rw [GetTable]
  exact getTableAux_chain hchain 0 offs.length (by omega)

/-- Witness for C2: on `exBlob`, looking up type 1 yields the first structure
(offset 0), and looking up the absent type 9 yields `nullptr`. -/
theorem getTable_firstMatch_witness :
    GetTable exMem 12 ([0, 6] : List Nat).length 1 = some 0 ∧
      GetTable exMem 12 ([0, 6] : List Nat).length 9 = none := by
  constructor
  · rw [getTable_firstMatch exMem 12 1 [0, 6] exChain]; decide
  · rw [getTable_firstMatch exMem 12 9 [0, 6] exChain]; decide

theorem getTableAux_skip {mem : Nat → Nat} {t L : Nat} :
    ∀ {pos e : Nat} {offs : List Nat}, WFchain mem pos e offs → e ≤ L →
    (∀ p ∈ offs, mem p ≠ t) →
    (∀ p ∈ offs, mem p ≠ TABLE_TYPE_END_OF_TABLE) →
    ∀ idx count, idx + offs.length ≤ count →
    getTableAux mem L count t pos idx =
      getTableAux mem L count t e (idx + offs.length) := by
  intro pos e offs h
  induction h with
  | nil p =>
    intro heL hnt hn7 idx count hc
    simp
  | cons pos mid e offs hlen hmid hz0 hz1 hns htail ih =>
    intro heL hnt hn7 idx count hc
    have hme : mid ≤ e := WFchain_le htail
    simp only [List.length_cons] at hc
    rw [getTableAux, dif_pos (by omega), dif_pos (by omega), if_neg (by omega),
      if_neg (hnt pos (by simp)), if_neg (hn7 pos (by simp))]
    have hz1' : mem (mid - 2 + 1) = 0 := by
      have h21 : mid - 2 + 1 = mid - 1 := by omega
      rw [h21]; exact hz1
    have hfind : findNext mem L (pos + mem (pos + 1)) = mid - 2 :=
      findNext_stops mem L _ _ (mid - 2) rfl (by omega) (by omega) hns hz0 hz1'
    rw [hfind]
    have hmid2 : mid - 2 + 2 = mid := by omega
    rw [hmid2, ih heL (fun p hp => hnt p (by simp [hp]))
      (fun p hp => hn7 p (by simp [hp])) (idx + 1) count (by omega)]
    have harith : idx + 1 + offs.length = idx + (offs.length + 1) := by omega
    rw [harith]
    simp [List.length_cons]

/-- C5: when the `GetTable` walk, after a wellformed prefix containing no
match and no end-of-table marker, visits a structure whose declared length is
below 4, it stops there and returns `nullptr` for the requested type, and the
`table_count_` member computed at construction is left unchanged by the
aborted walk. -/
theorem getTable_malformed_aborts (s : SMBiosState) (t M : Nat) (offs : List Nat)
    (hchain : WFchain s.mem 0 M offs)
    (hnt : ∀ p ∈ offs, s.mem p ≠ t)
    (hn7 : ∀ p ∈ offs, s.mem p ≠ TABLE_TYPE_END_OF_TABLE)
    (hmal : s.mem (M + 1) < 4)
    (hM : M + 4 ≤ s.length)
    (hcount : offs.length < s.table_count) :
    (GetTableM s t).1 = none ∧ (GetTableM s t).2.table_count = s.table_count := by
  refine ⟨?_, rfl⟩
  show getTableAux s.mem s.length s.table_count t 0 0 = none
  rw [getTableAux_skip hchain (by omega) hnt hn7 0 s.table_count (by omega)]
  rw [getTableAux, dif_pos (by omega), dif_pos (by omega), if_pos hmal]

/-- Witness for C5: on `exMalBlob` (a good type-1 structure, then a structure
of declared length 3) the lookup of type 9 returns `nullptr` and the cached
count 2 is untouched. -/
theorem getTable_malformed_aborts_witness :
    (GetTableM ⟨exMalMem, 10, 2⟩ 9).1 = none ∧
      (GetTableM ⟨exMalMem, 10, 2⟩ 9).2.table_count = 2 := by
  have hchain : WFchain exMalMem 0 6 [0] := by
    refine WFchain.cons 0 6 6 [] (by decide) (by decide) (by decide) (by decide)
      ?_ (WFchain.nil 6)
    intro i h1 h2
    have he : exMalMem (0 + 1) = 4 := by decide
    omega
  exact getTable_malformed_aborts ⟨exMalMem, 10, 2⟩ 9 6 [0] hchain
    (by decide) (by decide) (by decide) (by decide) (by decide)

/-- C9: the outer loop of `SMBios::GetTableCount` always completes at least
one iteration when the announced table-region length is non-zero, so the
count is at least 1 regardless of the bytes; consequently `SMBios::Create`
fails exactly on an empty buffer/size or a zero announced region length,
never because the region bytes are unparseable. -/
theorem create_noStructures_iff :
    (∀ (mem : Nat → Nat) (L : Nat), 0 < L → 1 ≤ GetTableCount mem L) ∧
    (∀ (d : SMBiosData) (ds : Nat),
      Create true ds d = none ↔ ds = 0 ∨ d.length = 0) := by
  have hge : ∀ (mem : Nat → Nat) (L : Nat), 0 < L → 1 ≤ GetTableCount mem L := by
    intro mem L hL
    rw [GetTableCount, countAux, dif_pos hL]
    exact countAux_ge mem L L _ 1 (Nat.sub_le _ _)
  refine ⟨hge, ?_⟩
  intro d ds
  rw [Create]
  by_cases hds : ds = 0
  · simp [hds]
  · rw [if_neg (by simp [hds])]
    by_cases hL : d.length = 0
    · rw [if_pos]
      · simp [hds, hL]
      · rw [hL, GetTableCount, countAux, dif_neg (Nat.lt_irrefl 0)]
    · have h1 : 1 ≤ GetTableCount d.smbios_table_data d.length :=
        hge _ _ (Nat.pos_of_ne_zero hL)
      rw [if_neg (by omega)]
      simp [hds, hL]

/-- Witness for C9: a non-empty region of a single zero byte still counts at
least one structure. -/
theorem create_noStructures_iff_witness :
    1 ≤ GetTableCount (fun _ => 0) 1 ∧
      (Create true 5 ⟨2, 6, 0, fun _ => 0⟩ = none ↔ 5 = 0 ∨ (0 : Nat) = 0) :=
  ⟨create_noStructures_iff.1 (fun _ => 0) 1 (by decide),
   create_noStructures_iff.2 ⟨2, 6, 0, fun _ => 0⟩ 5⟩

/-- C3: the safety claim that no decoder read leaves the supplied table
region is false of the source: counting a 1-byte region holding a single
zero byte dereferences offset 1 — the `pos[1]` declared-length read and the
16-bit string-terminator probe — which lies outside the region `[0, 1)`. -/
theorem getTableCount_reads_out_of_bounds :
    1 ∈ GetTableCountReads (fun _ => 0) 1 ∧ ¬ (1 < 1) := by
  constructor
  · rw [GetTableCountReads, countReads, dif_pos (by decide)]
    simp
  · decide

/-- C10: `SMBios::BiosTable::GetRuntimeSize` returns 0 exactly when the
starting-address segment word is 0 and `(0x10000 - address) << 4` otherwise:
the kilobyte branch `(code >> 10) * 1024`, taken when the low 10 bits of
`code` are all zero, is arithmetically equal to `code`, so the unit-selection
branching never changes the returned value. -/
theorem getRuntimeSize_eq (buf : List Nat) (s : Nat) :
    BiosTable.GetRuntimeSize buf s =
      if Table.GetWord buf s 0x06 = 0 then 0
      else (0x10000 - Table.GetWord buf s 0x06) <<< 4 := by
  simp only [BiosTable.GetRuntimeSize]
  by_cases h : Table.GetWord buf s 0x06 = 0
  · simp [h]
  · rw [if_neg h, if_neg h]
    by_cases hb : (0x10000 - Table.GetWord buf s 0x06) <<< 4 &&& 0x000003FF ≠ 0
    · rw [if_pos hb]
    · rw [if_neg hb]
      push_neg at hb
      generalize (0x10000 - Table.GetWord buf s 0x06) <<< 4 = code at hb ⊢
      have hand := Nat.and_pow_two_sub_one_eq_mod code 10
      norm_num at hand
      rw [hand] at hb
      rw [Nat.shiftRight_eq_div_pow]
      norm_num
      omega

theorem strend_stops (buf : List Nat) :
    ∀ (n a b : Nat), b - a = n → a ≤ b →
    (∀ i, a ≤ i → i < b → buf.getD i 0 ≠ 0) → buf.getD b 0 = 0 →
    strend buf a = b := by
  intro n
  induction n with
  | zero =>
    intro a b hn hab hns hz
    have hab' : a = b := by omega
    subst hab'
    rw [strend, dif_neg (not_not_intro hz)]
  | succ n ih =>
    intro a b hn hab hns hz
    have ha : a < b := by omega
    rw [strend, dif_pos (hns a (Nat.le_refl a) ha)]
    exact ih (a + 1) b (by omega) (by omega)
      (fun i h1 h2 => hns i (by omega) h2) hz

theorem getStringAux_segs (buf : List Nat) :
    ∀ (segs : List (List Nat)) (q handle : Nat), SegsAt buf q segs →
    segs.length < handle →
    buf.getD (getStringAux buf handle q) 0 = 0 := by
  intro segs
  induction segs with
  | nil =>
    intro q handle hseg _hlt
    simp only [SegsAt] at hseg
    rw [getStringAux]
    by_cases h1 : 1 < handle
    · rw [dif_pos h1, dif_neg (not_not_intro hseg)]
      exact hseg
    · rw [dif_neg h1]
      exact hseg
  | cons seg rest ih =>
    intro q handle hseg hlt
    simp only [SegsAt] at hseg
    obtain ⟨hne, hbytes, hz, hrest⟩ := hseg
    have hlen0 : 0 < seg.length := List.length_pos.mpr hne
    have h1 : 1 < handle := by
      simp only [List.length_cons] at hlt
      omega
    have hq : buf.getD q 0 ≠ 0 := by
      have h0 := hbytes 0 hlen0
      simp only [Nat.add_zero] at h0
      rw [h0.1]
      exact h0.2
    rw [getStringAux, dif_pos h1, dif_pos hq]
    have hstrend : strend buf q = q + seg.length := by
      refine strend_stops buf seg.length q (q + seg.length) (by omega) (by omega)
        ?_ hz
      intro i hi1 hi2
      have hj := hbytes (i - q) (by omega)
      have hqi : q + (i - q) = i := by omega
      rw [hqi] at hj
      rw [hj.1]
      exact hj.2
    rw [hstrend]
    refine ih (q + seg.length + 1) (handle - 1) hrest ?_
    simp only [List.length_cons] at hlt
    omega

/-- C4: `SMBios::Table::GetString(offset)` returns the empty string when the
index byte at `start + offset` is 0; and when that byte is a non-zero `k`
but the structure's trailing string list holds fewer than `k` strings (the
scan reaches the empty segment first), it also returns the empty string
rather than failing. -/
theorem getString_empty_cases (buf : List Nat) (s off : Nat)
    (segs : List (List Nat)) :
    (Table.GetByte buf s off = 0 → Table.GetString buf s off = []) ∧
    (SegsAt buf (s + buf.getD (s + 1) 0) segs →
      segs.length < Table.GetByte buf s off →
      Table.GetString buf s off = []) := by
  constructor
  · intro h0
    simp [Table.GetString, h0]
  · intro hseg hlt
    have hne : Table.GetByte buf s off ≠ 0 := by omega
    have hz := getStringAux_segs buf segs (s + buf.getD (s + 1) 0)
      (Table.GetByte buf s off) hseg hlt
    simp only [Table.GetString]
    rw [if_neg hne, if_pos hz]

/-- Witness for C4: on `exStrBlob` (strings "A", "B"; index byte 5 at offset
2; zero byte at offset 3) both the zero-index case and the truncated-list
case return the empty string. -/
theorem getString_empty_cases_witness :
    Table.GetString exStrBlob 0 3 = [] ∧ Table.GetString exStrBlob 0 2 = [] := by
  refine ⟨(getString_empty_cases exStrBlob 0 3 []).1 (by decide),
    (getString_empty_cases exStrBlob 0 2 [[65], [66]]).2 ?_ (by decide)⟩
  simp only [SegsAt]
  decide

theorem decideSeq (b : Nat → Nat) (v rem i : Nat) :
    (decide (b i = v) && decide (∀ j, j < rem → b (i + 1 + j) = v)) =
      decide (∀ j, j < rem + 1 → b (i + j) = v) := by
  rw [← Bool.decide_and]
  apply decide_eq_decide.mpr
  constructor
  · rintro ⟨h0, hs⟩ j hj
    cases j with
    | zero => simpa using h0
    | succ j' =>
      have hh := hs j' (by omega)
      have harith : i + 1 + j' = i + (j' + 1) := by omega
      rwa [harith] at hh
  · intro h
    refine ⟨by simpa using h 0 (by omega), fun j hj => ?_⟩
    have hh := h (j + 1) (by omega)
    have harith : i + (j + 1) = i + 1 + j := by omega
    rwa [harith] at hh

theorem uuidScanAux_eq (b : Nat → Nat) :
    ∀ (rem i : Nat) (o00 oFF : Bool),
    uuidScanAux b i rem o00 oFF =
      (o00 && decide (∀ j, j < rem → b (i + j) = 0x00),
       oFF && decide (∀ j, j < rem → b (i + j) = 0xFF)) := by
  intro rem
  induction rem with
  | zero =>
    intro i o00 oFF
    simp [uuidScanAux]
  | succ rem ih =>
    intro i o00 oFF
    rw [uuidScanAux]
    by_cases hf : (o00 || oFF) = true
    · rw [if_pos hf, ih]
      simp only [Prod.mk.injEq]
      constructor
      · rw [Bool.and_assoc, decideSeq]
      · rw [Bool.and_assoc, decideSeq]
    · have hboth : o00 = false ∧ oFF = false := by
        cases o00 <;> cases oFF <;> simp_all
      rw [if_neg hf]
      simp [hboth.1, hboth.2]

/-- C6 (amended): `SMBios::SystemTable::GetUUID` returns the empty string
when the declared length is below `0x19` (the source gates one byte beyond
the 16 UUID bytes themselves), or when the 16 bytes at offset 8 are all
`0x00` or all `0xFF`; otherwise it returns the hex GUID, mixed-endian from
version 2.6 on and raw below it — including the two concrete version-2.6 and
version-2.0 renderings of bytes `01..10`. -/
theorem getUUID_spec :
    (∀ (buf : List Nat) (s major minor : Nat),
      SystemTable.GetUUID buf s major minor = uuidSpecSide buf s major minor) ∧
    SystemTable.GetUUID exUUID25 0 2 6 = "04030201-0605-0807-090A-0B0C0D0E0F10" ∧
    SystemTable.GetUUID exUUID25 0 2 0 = "01020304-0506-0708-090A-0B0C0D0E0F10" ∧
    SystemTable.GetUUID exUUIDZero 0 2 6 = "" ∧
    SystemTable.GetUUID exUUIDFF 0 2 6 = "" := by
  refine ⟨?_, by decide, by decide, by decide, by decide⟩
  intro buf s major minor
  simp only [SystemTable.GetUUID, uuidSpecSide]
  by_cases hlen : Table.GetByte buf s 0x01 < 0x19
  · rw [if_pos hlen, if_pos hlen]
  · rw [if_neg hlen, if_neg hlen]
    set b : Nat → Nat := fun i => Table.GetByte buf s (0x08 + i) with hbdef
    rw [uuidScanAux_eq b 16 0 true true]
    have hA : (∀ j, j < 16 → b (0 + j) = 0x00) ↔ (∀ i : Fin 16, b i.1 = 0x00) := by
      constructor
      · intro h i
        simpa using h i.1 i.2
      · intro h j hj
        simpa using h ⟨j, hj⟩
    have hB : (∀ j, j < 16 → b (0 + j) = 0xFF) ↔ (∀ i : Fin 16, b i.1 = 0xFF) := by
      constructor
      · intro h i
        simpa using h i.1 i.2
      · intro h j hj
        simpa using h ⟨j, hj⟩
    simp only [Bool.true_and, Bool.or_eq_true, decide_eq_true_eq]
    simp only [hA, hB]

/-- C6 counterexample: a System structure of declared length `0x18` covers
the 16 UUID bytes (offsets 8..23), and those bytes are neither all `0x00`
nor all `0xFF`, yet `GetUUID` returns the empty string — the source demands
declared length `≥ 0x19`, one byte more than the UUID field itself needs, so
the claim's "otherwise it returns a hex GUID string" is false here. -/
theorem getUUID_claim_counterexample :
    0x08 + 16 ≤ Table.GetByte exUUID24 0 0x01 ∧
    ¬ (∀ i : Fin 16, Table.GetByte exUUID24 0 (0x08 + i.1) = 0x00) ∧
    ¬ (∀ i : Fin 16, Table.GetByte exUUID24 0 (0x08 + i.1) = 0xFF) ∧
    SystemTable.GetUUID exUUID24 0 2 6 = "" := by
  exact ⟨by decide, by decide, by decide, by decide⟩

theorem and_one_shiftLeft_ne (x i : Nat) :
    decide (x &&& (1 <<< i) ≠ 0) = x.testBit i := by
  rw [Nat.one_shiftLeft, Nat.and_two_pow]
  cases h : x.testBit i
  · simp
  · simp only [Bool.toNat_true, one_mul, decide_eq_true_eq]
    exact (Nat.two_pow_pos i).ne'

/-- C7 (amended): `SMBios::BiosTable::GetCharacteristics` omits the bits
4..31 block exactly when bit 3 of the characteristics qword is set, but the
two extension-byte blocks are still appended whenever the declared length
covers their offsets — even when bit 3 is set; the emitted pairs follow
ascending bit order with the fixed label tables. -/
theorem getCharacteristics_spec (buf : List Nat) (s : Nat) :
    BiosTable.GetCharacteristics buf s = charSpecSide buf s := by
  simp only [BiosTable.GetCharacteristics, charSpecSide]
  set c := Table.GetQword buf s 0x0A with hc
  have h3 : (c &&& (1 <<< 3) = 0) ↔ c.testBit 3 = false := by
    rw [Nat.one_shiftLeft, Nat.and_two_pow]
    cases h : c.testBit 3
    · simp
    · simp only [Bool.toNat_true, one_mul]
      constructor
      · intro hz
        exact absurd hz (Nat.two_pow_pos 3).ne'
      · intro hz
        exact absurd hz (by simp)
  by_cases htb : c.testBit 3 = true
  · rw [if_neg (by rw [h3]; simp [htb]), if_pos htb]
    simp only [and_one_shiftLeft_ne]
  · have htb' : c.testBit 3 = false := by
      cases h : c.testBit 3
      · rfl
      · exact absurd h htb
    rw [if_pos (h3.mpr htb'), if_neg (show ¬(c.testBit 3 = true) by simp [htb'])]
    simp only [and_one_shiftLeft_ne]

/-- C7 counterexample: on `exBios` bit 3 of the characteristics qword at
offset `0x0A` is set ("BIOS characteristics not supported"), yet the declared
length `0x13` makes `GetCharacteristics` append the first extension block, so
the returned feature list is not empty — refuting "reports no
characteristics at all (the returned feature list is empty)". -/
theorem getCharacteristics_claim_counterexample :
    Table.GetQword exBios 0 0x0A &&& (1 <<< 3) ≠ 0 ∧
    BiosTable.GetCharacteristics exBios 0 ≠ [] := by
  exact ⟨by decide, by decide⟩

theorem and_31_eq_zero_iff (f : Nat) :
    f &&& 0x1F = 0 ↔ ∀ i : Fin 5, f.testBit i.1 = false := by
  have h31 : (0x1F : Nat) = 2 ^ 5 - 1 := by norm_num
  rw [h31, Nat.and_pow_two_sub_one_eq_mod]
  constructor
  · intro h i
    have ht := Nat.testBit_mod_two_pow f 5 i.1
    rw [h, Nat.zero_testBit, decide_eq_true (i.2 : i.1 < 5)] at ht
    simpa using ht.symm
  · intro h
    apply Nat.eq_of_testBit_eq
    intro j
    rw [Nat.testBit_mod_two_pow, Nat.zero_testBit]
    by_cases hj : j < 5
    · rw [h ⟨j, hj⟩]
      simp
    · simp [hj]

/-- C8 (amended): `SMBios::BaseboardTable::GetFeatures` returns the empty
list exactly when the feature byte is absent (declared length below `0x0A`)
or bits 0..4 of the feature byte at offset 9 are all clear (the source tests
`features & 0x1F`, not the whole byte); otherwise it returns the five
`(label, isSet)` pairs for bits 0..4 in ascending bit order. -/
theorem getFeatures_spec (buf : List Nat) (s : Nat) :
    BaseboardTable.GetFeatures buf s =
      if Table.GetByte buf s 0x01 < 0x0A ∨
          (∀ i : Fin 5, (Table.GetByte buf s 0x09).testBit i.1 = false) then []
      else (List.range 5).map fun i =>
        (baseboardFeatureNames.getD i "", (Table.GetByte buf s 0x09).testBit i) := by
  simp only [BaseboardTable.GetFeatures]
  by_cases hlen : Table.GetByte buf s 0x01 < 0x0A
  · rw [if_pos hlen, if_pos (Or.inl hlen)]
  · rw [if_neg hlen]
    by_cases hf : Table.GetByte buf s 0x09 &&& 0x1F = 0
    · rw [if_pos hf, if_pos (Or.inr ((and_31_eq_zero_iff _).mp hf))]
    · rw [if_neg hf, if_neg ?hcond]
      case hcond =>
        rintro (h | h)
        · exact hlen h
        · exact hf ((and_31_eq_zero_iff _).mpr h)
      simp only [and_one_shiftLeft_ne]

/-- C8 counterexample: on `exBoard` the declared length is `0x0A` (the byte
is present) and the feature byte at offset 9 is `0x20 ≠ 0`, yet `GetFeatures`
returns the empty list — refuting "empty exactly when the feature byte is
zero or absent" and "for every non-zero feature byte it returns five
pairs". -/
theorem getFeatures_claim_counterexample :
    Table.GetByte exBoard 0 0x09 ≠ 0 ∧
    ¬ (Table.GetByte exBoard 0 0x01 < 0x0A) ∧
    BaseboardTable.GetFeatures exBoard 0 = [] := by
  exact ⟨by decide, by decide, by decide⟩

end SMBios
